import Mathlib

/-!
Shallow embedding of the crypto scanner in `src/main.py`.

Python floats are modelled as exact rationals (`ℚ`); Python lists of
klines (`[openTime, open, high, low, close, volume, ...]`) become lists of
`Candle` records; functions that can fail or raise become `Option`-valued.
A Python `try/except` body that can raise is modelled as an `Option`
computation whose `none` outcome corresponds to an exception
(in `scan_last_candle` the only possible exceptions in exact arithmetic
are divisions by zero).
-/

set_option allowUnsafeReducibility true

set_option maxRecDepth 1000000

attribute [semireducible] Rat.add Rat.mul Rat.inv Rat.sub Rat.div Rat.neg Rat.blt

namespace Break

/-- One OHLCV kline.  The Python code accesses klines positionally:
`[0]=openTime, [1]=open, [2]=high, [3]=low, [4]=close, [5]=volume`. -/
structure Candle where
  openTime : ℚ
  openP : ℚ
  high : ℚ
  low : ℚ
  close : ℚ
  volume : ℚ
  deriving DecidableEq, Repr, Inhabited

/-- `candles[i]` (out-of-range access never occurs on the paths we prove
about; the default keeps the function total). -/
def candleAt (cs : List Candle) (i : ℕ) : Candle := cs.getD i default

def closeAt (cs : List Candle) (i : ℕ) : ℚ := (candleAt cs i).close

def highAt (cs : List Candle) (i : ℕ) : ℚ := (candleAt cs i).high

def lowAt (cs : List Candle) (i : ℕ) : ℚ := (candleAt cs i).low

/-- Wilder RMA smoothing loop: `for s in samples: a = (a*(p-1)+s)/p`
(`main.py` lines 97-99 and 122-123; `p-1` is Python int arithmetic,
hence the cast before subtraction). -/
def rmaFold (p : ℕ) (seed : ℚ) (samples : List ℚ) : ℚ :=
  samples.foldl (fun a s => (a * ((p : ℚ) - 1) + s) / p) seed

/-- Round-half-to-even to an integer, the semantics of Python `round`
in exact arithmetic. -/
def roundHalfEven (q : ℚ) : ℤ :=
  let f := Rat.floor q
  let r := q - f
  if r < 1/2 then f
  else if 1/2 < r then f + 1
  else if f % 2 = 0 then f else f + 1

/-- Python `round(x, 2)`. -/
def round2 (q : ℚ) : ℚ := (roundHalfEven (q * 100) : ℚ) / 100

/-- `changes = [closes[i] - closes[i-1] for i in range(1, len(closes))]`
(`main.py` line 90). -/
def changesOf (closes : List ℚ) : List ℚ :=
  (List.range (closes.length - 1)).map (fun i => closes.getD (i+1) 0 - closes.getD i 0)

/-- `calculate_rsi` (`main.py` lines 85-105).  The Python loop updates the
two Wilder accumulators in lock-step; the two `rmaFold`s below are that
loop with the independent accumulators separated. -/
def calculate_rsi (closes : List ℚ) (period : ℕ) : Option ℚ :=
  if closes.length < period + 1 then none
  else
    let changes := changesOf closes
    let gains := changes.map (fun c => max c 0)
    let losses := changes.map (fun c => max (-c) 0)
    let avgGain := rmaFold period ((gains.take period).sum / period) (gains.drop period)
    let avgLoss := rmaFold period ((losses.take period).sum / period) (losses.drop period)
    if avgLoss = 0 then some 100
    else some (round2 (100 - 100 / (1 + avgGain / avgLoss)))

/-- True range of candle `i` against the previous close
(`main.py` lines 115-118). -/
def trAt (cs : List Candle) (i : ℕ) : ℚ :=
  max (highAt cs i - lowAt cs i)
    (max |highAt cs i - closeAt cs (i-1)| |lowAt cs i - closeAt cs (i-1)|)

/-- The `trs` list of `calculate_atr` (`main.py` lines 113-119):
`trs[j]` is the true range of candle `j+1`. -/
def trListOf (cs : List Candle) : List ℚ :=
  (List.range (cs.length - 1)).map (fun j => trAt cs (j+1))

/-- Body of `calculate_atr` without the length guard
(`main.py` lines 121-123): seed with the simple mean of the first
`period` true ranges, then Wilder RMA over the rest. -/
def atrW (cs : List Candle) (period : ℕ) : ℚ :=
  rmaFold period (((trListOf cs).take period).sum / period) ((trListOf cs).drop period)

/-- `calculate_atr` (`main.py` lines 108-125). -/
def calculate_atr (cs : List Candle) (period : ℕ) : Option ℚ :=
  if cs.length < period + 1 then none else some (atrW cs period)

/-- `src = (high + low) / 2` (`main.py` line 140). -/
def srcAt (cs : List Candle) (i : ℕ) : ℚ := (highAt cs i + lowAt cs i) / 2

/-- The per-index ATR of `calculate_supertrend`
(`main.py` line 143): `calculate_atr(candles[:idx+1], atr_period)`,
which is always defined there because `idx ≥ atr_period`. -/
def atrAt (cs : List Candle) (p : ℕ) (i : ℕ) : ℚ := atrW (cs.take (i+1)) p

/-- `up = src - multiplier * atr` before ratcheting (`main.py` line 145);
this is the basic lower (uptrend/support) band. -/
def basicUp (cs : List Candle) (p : ℕ) (m : ℚ) (i : ℕ) : ℚ :=
  srcAt cs i - m * atrAt cs p i

/-- `dn = src + multiplier * atr` before ratcheting (`main.py` line 153);
this is the basic upper (downtrend/resistance) band. -/
def basicDn (cs : List Candle) (p : ℕ) (m : ℚ) (i : ℕ) : ℚ :=
  srcAt cs i + m * atrAt cs p i

/-- `up_list` of `calculate_supertrend` (`main.py` lines 145-151), indexed
by offset `k` (candle index `p + k`).  The loop appends
`max(up, up1) if prev_close > up1 else up`. -/
def upBandAux (cs : List Candle) (p : ℕ) (m : ℚ) : ℕ → ℚ
  | 0 => basicUp cs p m p
  | k+1 =>
      let i := p + (k+1)
      let b := basicUp cs p m i
      let u1 := upBandAux cs p m k
      if closeAt cs (i-1) > u1 then max b u1 else b

/-- `dn_list` of `calculate_supertrend` (`main.py` lines 153-158): the loop
appends `min(dn, dn1) if prev_close < dn1 else dn`. -/
def dnBandAux (cs : List Candle) (p : ℕ) (m : ℚ) : ℕ → ℚ
  | 0 => basicDn cs p m p
  | k+1 =>
      let i := p + (k+1)
      let b := basicDn cs p m i
      let d1 := dnBandAux cs p m k
      if closeAt cs (i-1) < d1 then min b d1 else b

/-- `trend_list` of `calculate_supertrend` (`main.py` lines 160-174):
`1` at the first evaluable index, thereafter flip on a strict cross of
the previous opposite band. -/
def trendAux (cs : List Candle) (p : ℕ) (m : ℚ) : ℕ → ℤ
  | 0 => 1
  | k+1 =>
      let i := p + (k+1)
      let pt := trendAux cs p m k
      if pt = -1 ∧ closeAt cs i > dnBandAux cs p m k then 1
      else if pt = 1 ∧ closeAt cs i < upBandAux cs p m k then -1
      else pt

/-- `calculate_supertrend` (`main.py` lines 127-184).  Returns
`(last_trend, prev_trend, last_up, last_dn, prev_up, prev_dn)`; the lists
built by the loop have length `cs.length - p`, so the last offset is
`cs.length - 1 - p` and, as in the Python (`lists[-2] if len > 1 else
last`), the "previous" values fall back to the last ones when only one
index was evaluated. -/
def calculate_supertrend (cs : List Candle) (p : ℕ) (m : ℚ) :
    Option (ℤ × ℤ × ℚ × ℚ × ℚ × ℚ) :=
  if cs.length < p + 1 then none
  else
    let K := cs.length - 1 - p
    some (trendAux cs p m K, trendAux cs p m (K-1),
          upBandAux cs p m K, dnBandAux cs p m K,
          upBandAux cs p m (K-1), dnBandAux cs p m (K-1))

/-- Spec §4.2: the active Supertrend value is the lower band in an uptrend
and the upper band in a downtrend. -/
def stValueAux (cs : List Candle) (p : ℕ) (m : ℚ) (k : ℕ) : ℚ :=
  if trendAux cs p m k = 1 then upBandAux cs p m k else dnBandAux cs p m k

/-- The `pump_result` tuple
`(symbol, pct, close, vol_usdt, vm, rsi, candles_since_last, hour)`
(`main.py` line 256); the hour bucket is kept as the integral hour of the
candle open time, which determines the `"%Y-%m-%d %H:00"` string. -/
structure PumpRes where
  symbol : String
  pct : ℚ
  close : ℚ
  volUsdt : ℚ
  vm : ℚ
  rsi : Option ℚ
  candlesSince : ℕ
  hour : ℤ
  deriving DecidableEq, Repr

/-- The `breakout_result` tuple (`main.py` lines 282-284). -/
structure BreakoutRes where
  symbol : String
  pct : ℚ
  close : ℚ
  volUsdt : ℚ
  vm : ℚ
  rsi : Option ℚ
  lastTrend : ℤ
  oldRedLine : ℚ
  redDistance : ℚ
  newGreenLine : ℚ
  greenDistance : ℚ
  candlesSince : ℕ
  hour : ℤ
  deriving DecidableEq, Repr

/-- The hour bucket of `datetime.fromtimestamp(t/1000).strftime(...)`
(`main.py` lines 220-221): the UTC hour number since the epoch. -/
def hourBucket (t : ℚ) : ℤ := Rat.floor (t / 3600000)

/-- `pct = ((close - prev_close) / prev_close) * 100` at index `i`
(`main.py` lines 228 and 251). -/
def pctAt (cs : List Candle) (i : ℕ) : ℚ :=
  (closeAt cs i - closeAt cs (i-1)) / closeAt cs (i-1) * 100

/-- The indices visited by the `candles_since_last` pump scan
(`main.py` line 250): `range(last_idx - 1, max(0, last_idx - 250), -1)`,
i.e. `last_idx - 1` down to `max(0, last_idx - 250) + 1`. -/
def pumpIdxList (lastIdx : ℕ) : List ℕ :=
  (List.range' (lastIdx - 250 + 1) (lastIdx - 1 - (lastIdx - 250))).reverse

/-- The `candles_since_last` pump loop body (`main.py` lines 250-254);
`none` models the `ZeroDivisionError` raised when a visited previous
close is zero, otherwise the distance to the first (most recent)
qualifying index, defaulting to 250. -/
def pumpLoopE (cs : List Candle) (lastIdx : ℕ) : List ℕ → Option ℕ
  | [] => some 250
  | i :: rest =>
      if closeAt cs (i-1) = 0 then none
      else if pctAt cs i ≥ 3 then some (lastIdx - i)
      else pumpLoopE cs lastIdx rest

/-- The `candles_since_last` breakout loop (`main.py` lines 262-274),
iterating over `look_back in range(1, min(250, last_idx))`; it stops with
the default 250 as soon as `check_idx < 15`. -/
def breakoutLoop (cs : List Candle) (lastIdx : ℕ) : List ℕ → ℕ
  | [] => 250
  | lb :: rest =>
      let ci := lastIdx - lb
      if ci < 15 then 250
      else
        match calculate_supertrend (cs.take (ci+1)) 10 3 with
        | some (t, pt, _, _, _, _) =>
            if pt = -1 ∧ t = 1 then lb else breakoutLoop cs lastIdx rest
        | none => breakoutLoop cs lastIdx rest

/-- `vol_usdt = open * volume` of the candle at `i` (`main.py` line 227). -/
def volUsdtAt (cs : List Candle) (i : ℕ) : ℚ :=
  (candleAt cs i).openP * (candleAt cs i).volume

/-- The 20-candle volume moving average (`main.py` lines 231-233). -/
def maAt (cs : List Candle) (lastIdx : ℕ) : ℚ :=
  let maVol := (List.range' (lastIdx - 19) (lastIdx + 1 - (lastIdx - 19))).map
    (fun j => volUsdtAt cs j)
  maVol.sum / maVol.length

/-- `vm = vol_usdt / ma if ma > 0 else 1.0` (`main.py` line 234). -/
def vmAt (cs : List Candle) (lastIdx : ℕ) : ℚ :=
  if maAt cs lastIdx > 0 then volUsdtAt cs lastIdx / maAt cs lastIdx else 1

/-- The RSI of all closes up to `last_idx` (`main.py` lines 237-238). -/
def rsiAt (cs : List Candle) (lastIdx : ℕ) : Option ℚ :=
  calculate_rsi ((List.range (lastIdx + 1)).map (fun j => closeAt cs j)) 14

/-- The supertrend state at `last_idx`
(`main.py` line 241: `calculate_supertrend(candles[:last_idx+1])`). -/
def stAt (cs : List Candle) (lastIdx : ℕ) : Option (ℤ × ℤ × ℚ × ℚ × ℚ × ℚ) :=
  calculate_supertrend (cs.take (lastIdx + 1)) 10 3

/-- The pump check (`main.py` lines 246-256): `some none` when no pump,
`some (some r)` when a pump fires, `none` when the backward scan raises. -/
def pumpPartE (s : String) (cs : List Candle) (lastIdx : ℕ) :
    Option (Option PumpRes) :=
  if pctAt cs lastIdx ≥ 3 then
    (pumpLoopE cs lastIdx (pumpIdxList lastIdx)).map (fun d =>
      some ⟨s, pctAt cs lastIdx, closeAt cs lastIdx, volUsdtAt cs lastIdx,
            vmAt cs lastIdx, rsiAt cs lastIdx, d,
            hourBucket (candleAt cs lastIdx).openTime⟩)
  else some none

/-- The breakout check (`main.py` lines 258-284): fires when the trend
flipped from `-1` to `1`; `none` models the `ZeroDivisionError` raised
when the red or green line is zero. -/
def breakPartE (s : String) (cs : List Candle) (lastIdx : ℕ) :
    Option (Option BreakoutRes) :=
  match stAt cs lastIdx with
  | none => some none
  | some (lastTrend, prevTrend, lastUp, _, _, prevDn) =>
      if prevTrend = -1 ∧ lastTrend = 1 then
        let csince := breakoutLoop cs lastIdx (List.range' 1 (min 250 lastIdx - 1))
        if prevDn = 0 then none
        else if lastUp = 0 then none
        else
          some (some ⟨s, pctAt cs lastIdx, closeAt cs lastIdx,
                volUsdtAt cs lastIdx, vmAt cs lastIdx, rsiAt cs lastIdx,
                lastTrend, prevDn, (closeAt cs lastIdx - prevDn) / prevDn * 100,
                lastUp, (closeAt cs lastIdx - lastUp) / lastUp * 100,
                csince, hourBucket (candleAt cs lastIdx).openTime⟩)
      else some none

/-- The body of `scan_last_candle`'s `try` block after the payload guard,
parameterized by `last_idx` (`main.py` lines 214-286).  The outer `none`
is an exception escaping to the `except` handler; the first possible
exception is the `pct` division by a zero previous close. -/
def scanAt (s : String) (cs : List Candle) (lastIdx : ℕ) :
    Option (Option PumpRes × Option BreakoutRes) :=
  if closeAt cs (lastIdx - 1) = 0 then none
  else
    (pumpPartE s cs lastIdx).bind (fun pr =>
      (breakPartE s cs lastIdx).map (fun br => (pr, br)))

/-- A fetched klines payload: either a JSON object (the provider's error
shape) or an array of candles. -/
inductive Klines where
  | obj : Klines
  | arr : List Candle → Klines
  deriving DecidableEq

/-- `scan_last_candle` (`main.py` lines 201-290): the payload sentinel
check (`not candles or isinstance(candles, dict) or len(candles) < 20`,
an empty array being covered by the length check), then the scan of the
last closed candle at index `len - 2`, with every exception mapped to
`(None, None)` by the `except` handler. -/
def scan_last_candle (s : String) (k : Klines) :
    Option PumpRes × Option BreakoutRes :=
  match k with
  | .obj => (none, none)
  | .arr cs =>
      if cs.length < 20 then (none, none)
      else (scanAt s cs (cs.length - 2)).getD (none, none)

/-- Result of the Support-Touch detector, carrying both band distances. -/
structure SupportTouchRes where
  symbol : String
  close : ℚ
  supportDistance : ℚ
  resistDistance : ℚ
  deriving DecidableEq, Repr

/-- Modelled from the spec: the Support-Touch detector (§4.3) is part of
this repository's design but is not present in `src/main.py`.  Per the
spec it fires when the current Supertrend direction is `-1` (downtrend)
and `distanceToSupport = (close - lowerBand)/lowerBand*100` lies in the
configured inclusive band `[lo, hi]` (default `[0, 3]`), operating on the
last fully-closed candle and reporting both support and resistance
distances; it fails closed on insufficient history. -/
def support_touch (s : String) (cs : List Candle) (lo hi : ℚ) :
    Option SupportTouchRes :=
  if cs.length < 20 then none
  else
    let lastIdx := cs.length - 2
    match stAt cs lastIdx with
    | none => none
    | some (lastTrend, _, lastUp, lastDn, _, _) =>
        let c := closeAt cs lastIdx
        let dSup := (c - lastUp) / lastUp * 100
        let dRes := (c - lastDn) / lastDn * 100
        if lastTrend = -1 ∧ lo ≤ dSup ∧ dSup ≤ hi then
          some ⟨s, c, dSup, dRes⟩
        else none

/-- Result of the Accumulation detector. -/
structure AccumRes where
  symbol : String
  price : ℚ
  volRatio : ℚ
  deriving DecidableEq, Repr

/-- Modelled from the spec: the Accumulation detector (§4.3) is part of
this repository's design but is not present in `src/main.py`.  Per the
spec it fires when (a) each of the last 6 closed hourly candles moved at
most 1% between open and close, and (b) on the 15-minute series the most
recent closed candle's volume and each of the 3 preceding candles'
volumes are all at least 1.5 times the mean volume of the 8 candles
preceding that 4-candle window; the still-forming last element of each
series is excluded (§3) and insufficient history fails closed. -/
def accumulation (s : String) (hourly m15 : List Candle) : Option AccumRes :=
  if hourly.length < 7 ∨ m15.length < 13 then none
  else
    let hIdx := hourly.length - 2
    let mIdx := m15.length - 2
    let stable := (List.range 6).all (fun j =>
      decide (|closeAt hourly (hIdx - j) - (candleAt hourly (hIdx - j)).openP| /
        (candleAt hourly (hIdx - j)).openP * 100 ≤ 1))
    let base := ((List.range 8).map (fun j => (candleAt m15 (mIdx - 4 - j)).volume)).sum / 8
    let spike := (List.range 4).all (fun j =>
      decide ((candleAt m15 (mIdx - j)).volume ≥ 3/2 * base))
    if stable ∧ spike then
      some ⟨s, closeAt m15 mIdx, (candleAt m15 mIdx).volume / base⟩
    else none

/-- Dedup key of a pump alert: `(p[0], p[7])` (`main.py` line 418). -/
def pumpKey (p : PumpRes) : String × ℤ := (p.symbol, p.hour)

/-- Dedup key of a breakout alert: `(b[0], b[12])` (`main.py` line 419). -/
def breakoutKey (b : BreakoutRes) : String × ℤ := (b.symbol, b.hour)

/-- One scan cycle's pump results (`check_all_symbols`, `main.py`
lines 292-311): one `scan_last_candle` task per symbol, keeping the
symbols whose pump slot is non-`None`. -/
def pumpsOf (symbols : List String) (data : String → Klines) : List PumpRes :=
  symbols.filterMap (fun s => (scan_last_candle s (data s)).1)

/-- One scan cycle's breakout results (`check_all_symbols`). -/
def breakoutsOf (symbols : List String) (data : String → Klines) : List BreakoutRes :=
  symbols.filterMap (fun s => (scan_last_candle s (data s)).2)

/-- `[x for x in alerts if key(x) not in reported]`
(`main.py` lines 418-419). -/
def freshOf {A K : Type} [DecidableEq K] (key : A → K) (rep : List K)
    (l : List A) : List A :=
  l.filter (fun a => key a ∉ rep)

/-- The dedup filter of the main loop (`main.py` lines 418-425) iterated
over successive scan cycles: each cycle keeps the alerts whose key is not
yet reported, then adds their keys to the reported set. -/
def runCycles {A K : Type} [DecidableEq K] (key : A → K) :
    List (List A) → List K → List (List A)
  | [], _ => []
  | al :: rest, rep =>
      let fresh := freshOf key rep al
      fresh :: runCycles key rest (rep ++ fresh.map key)

/-- The reported-key set after a run of cycles (`main.py` lines 421-425). -/
def repAfter {A K : Type} [DecidableEq K] (key : A → K) :
    List (List A) → List K → List K
  | [], rep => rep
  | al :: rest, rep => repAfter key rest (rep ++ (freshOf key rep al).map key)

/-- The fresh pump alerts emitted per cycle over a whole process run:
the symbol universe is fixed once (`main.py` line 396), each cycle `n`
scans it against that cycle's market data `datas[n]`, and the reported
set starts empty (`main.py` line 21). -/
def pumpRun (symbols : List String) (datas : List (String → Klines)) :
    List (List PumpRes) :=
  runCycles pumpKey (datas.map (pumpsOf symbols)) []

/-- The fresh breakout alerts emitted per cycle over a whole process run. -/
def breakoutRun (symbols : List String) (datas : List (String → Klines)) :
    List (List BreakoutRes) :=
  runCycles breakoutKey (datas.map (breakoutsOf symbols)) []

/-! ### Concrete candle windows used as witnesses -/

/-- A 20-candle hourly window: 18 candles declining by 1 with range 1,
then a closed candle jumping from 83 to 95 (a +14.46% move crossing the
previous upper band), then a still-forming candle. -/
def brkW : List Candle :=
  (List.range 18).map (fun i =>
    ⟨(i:ℚ) * 3600000, 101 - i, (100:ℚ) - i + 1/2, (100:ℚ) - i - 1/2, 100 - i, 1⟩) ++
  [⟨18 * 3600000, 83, 96, 83, 95, 1⟩, ⟨19 * 3600000, 95, 95, 95, 95, 1⟩]

/-- A 20-candle hourly window whose last closed candle sits 0.63% above
the lower band while the Supertrend direction is still `-1`. -/
def stW : List Candle :=
  (List.range 18).map (fun i =>
    ⟨(i:ℚ) * 3600000, 101 - i, (100:ℚ) - i + 1/2, (100:ℚ) - i - 1/2, 100 - i, 1⟩) ++
  [⟨18 * 3600000, 83, 161/2, 159/2, 80, 1⟩, ⟨19 * 3600000, 80, 80, 80, 80, 1⟩]

/-- Hourly window for the Accumulation witness: every candle moves 0.5%
between open and close. -/
def accH : List Candle := List.replicate 8 ⟨0, 100, 101, 100, 201/2, 1⟩

/-- 15-minute window for the Accumulation witness: base volume 1, then a
sustained spike of volume 2 on the 4 candles ending at the last closed
one. -/
def accM : List Candle :=
  List.replicate 9 ⟨0, 100, 100, 100, 100, 1⟩ ++
  List.replicate 4 ⟨0, 100, 100, 100, 100, 2⟩ ++ [⟨0, 100, 100, 100, 100, 1⟩]

/-- A 12-candle window (`atr_period = 10`) where the close of the first
evaluable candle equals its upper band exactly (both are 7), and the next
candle widens the basic upper band to 17/2. -/
def c2W : List Candle :=
  (List.replicate 10 ⟨0, 1, 2, 0, 1, 1⟩) ++ [⟨0, 1, 2, 0, 7, 1⟩, ⟨0, 1, 2, 0, 1, 1⟩]

/-! ### Definitional step equations of the Supertrend loop -/

theorem upBandAux_succ (cs : List Candle) (p : ℕ) (m : ℚ) (k : ℕ) :
    upBandAux cs p m (k+1) =
      (if closeAt cs (p+k) > upBandAux cs p m k
       then max (basicUp cs p m (p+(k+1))) (upBandAux cs p m k)
       else basicUp cs p m (p+(k+1))) := rfl

theorem dnBandAux_succ (cs : List Candle) (p : ℕ) (m : ℚ) (k : ℕ) :
    dnBandAux cs p m (k+1) =
      (if closeAt cs (p+k) < dnBandAux cs p m k
       then min (basicDn cs p m (p+(k+1))) (dnBandAux cs p m k)
       else basicDn cs p m (p+(k+1))) := rfl

theorem trendAux_succ (cs : List Candle) (p : ℕ) (m : ℚ) (k : ℕ) :
    trendAux cs p m (k+1) =
      (if trendAux cs p m k = -1 ∧ closeAt cs (p+(k+1)) > dnBandAux cs p m k then 1
       else if trendAux cs p m k = 1 ∧ closeAt cs (p+(k+1)) < upBandAux cs p m k then -1
       else trendAux cs p m k) := rfl

/-! ### C2: the band ratchet rule -/

/-- C2, counterexample.  The claim places the boundary case
`close[i-1] = upperBand[i-1]` in the `min` branch.  On `c2W` (12 candles,
`atrPeriod = 10`, evaluable index `i = 11` after the first) the previous
close equals the previous upper band exactly (both 7), yet the code
produces the basic band `17/2`, not
`min(basicUpper[11], upperBand[10]) = 7` as the claim requires. -/
theorem c2_counterexample :
    closeAt c2W 10 = dnBandAux c2W 10 3 0 ∧
    dnBandAux c2W 10 3 1 ≠ min (basicDn c2W 10 3 11) (dnBandAux c2W 10 3 0) := by
  decide

/-- C2, amended: the ratchet rule holds with the basic-band branch taken
when `close[i-1] ≥ upperBand[i-1]` (resp. `close[i-1] ≤ lowerBand[i-1]`),
so at exact equality the basic-band branch (not the `min`/`max` ratchet
branch) applies. -/
theorem c2_bands_ratchet (cs : List Candle) (p : ℕ) (m : ℚ) (k : ℕ)
    (_hlen : p + 1 ≤ cs.length) (_hk : p + (k+1) < cs.length) :
    dnBandAux cs p m (k+1) =
      (if closeAt cs (p+k) ≥ dnBandAux cs p m k
       then basicDn cs p m (p+(k+1))
       else min (basicDn cs p m (p+(k+1))) (dnBandAux cs p m k)) ∧
    upBandAux cs p m (k+1) =
      (if closeAt cs (p+k) ≤ upBandAux cs p m k
       then basicUp cs p m (p+(k+1))
       else max (basicUp cs p m (p+(k+1))) (upBandAux cs p m k)) := by
  constructor
  · rw [dnBandAux_succ]
    rcases lt_or_ge (closeAt cs (p+k)) (dnBandAux cs p m k) with h | h
    · rw [if_pos h, if_neg (not_le.mpr h)]
    · rw [if_neg (not_lt.mpr h), if_pos h]
  · rw [upBandAux_succ]
    rcases le_or_lt (closeAt cs (p+k)) (upBandAux cs p m k) with h | h
    · rw [if_neg (not_lt.mpr h), if_pos h]
    · rw [if_pos h, if_neg (not_le.mpr h)]

/-- Witness for `c2_bands_ratchet` at `cs = c2W`, `p = 10`, `m = 3`,
`k = 0`. -/
theorem c2_bands_ratchet_witness :
    (10 + 1 ≤ c2W.length ∧ 10 + (0+1) < c2W.length) ∧
    dnBandAux c2W 10 3 (0+1) =
      (if closeAt c2W (10+0) ≥ dnBandAux c2W 10 3 0
       then basicDn c2W 10 3 (10+(0+1))
       else min (basicDn c2W 10 3 (10+(0+1))) (dnBandAux c2W 10 3 0)) :=
  ⟨⟨by decide, by decide⟩,
   (c2_bands_ratchet c2W 10 3 0 (by decide) (by decide)).1⟩

/-! ### C3: the direction flip rule -/

/-- C3: the Supertrend direction is `+1` at the first evaluable index;
at every later evaluable index it flips from `-1` to `+1` exactly when
the close strictly exceeds the previous upper band, flips from `+1` to
`-1` exactly when the close is strictly below the previous lower band,
is unchanged when neither strict crossing holds, and in particular never
changes when the close equals the previous opposite band exactly. -/
theorem c3_direction (cs : List Candle) (p : ℕ) (m : ℚ)
    (_hlen : p + 1 ≤ cs.length) :
    trendAux cs p m 0 = 1 ∧
    ∀ k, p + (k+1) < cs.length →
      ((trendAux cs p m k = -1 →
          (trendAux cs p m (k+1) = 1 ↔ dnBandAux cs p m k < closeAt cs (p+(k+1)))) ∧
       (trendAux cs p m k = 1 →
          (trendAux cs p m (k+1) = -1 ↔ closeAt cs (p+(k+1)) < upBandAux cs p m k)) ∧
       (¬(trendAux cs p m k = -1 ∧ dnBandAux cs p m k < closeAt cs (p+(k+1))) →
        ¬(trendAux cs p m k = 1 ∧ closeAt cs (p+(k+1)) < upBandAux cs p m k) →
        trendAux cs p m (k+1) = trendAux cs p m k) ∧
       (trendAux cs p m k = -1 → closeAt cs (p+(k+1)) = dnBandAux cs p m k →
        trendAux cs p m (k+1) = -1) ∧
       (trendAux cs p m k = 1 → closeAt cs (p+(k+1)) = upBandAux cs p m k →
        trendAux cs p m (k+1) = 1)) := by
  refine ⟨rfl, fun k _hk => ?_⟩
  rw [trendAux_succ]
  refine ⟨fun ht => ?_, fun ht => ?_, fun h1 h2 => ?_, fun ht he => ?_, fun ht he => ?_⟩
  · simp only [ht]
    constructor
    · intro h
      by_contra hc
      simp [hc] at h
    · intro h
      simp [h]
  · simp only [ht]
    constructor
    · intro h
      by_contra hc
      simp [hc] at h
    · intro h
      simp [h]
  · rw [if_neg h1, if_neg h2]
  · simp only [ht, he]
    simp
  · simp only [ht, he]
    simp

/-- Witness for `c3_direction` at `cs = c2W`, `p = 10`, `m = 3`,
projected at `k = 0`. -/
theorem c3_direction_witness :
    (10 + 1 ≤ c2W.length ∧ 10 + (0+1) < c2W.length) ∧
    trendAux c2W 10 3 0 = 1 ∧
    (trendAux c2W 10 3 0 = 1 →
      (trendAux c2W 10 3 (0+1) = -1 ↔ closeAt c2W (10+(0+1)) < upBandAux c2W 10 3 0)) :=
  ⟨⟨by decide, by decide⟩, (c3_direction c2W 10 3 (by decide)).1,
   ((c3_direction c2W 10 3 (by decide)).2 0 (by decide)).2.1⟩

/-! ### C1: all four pattern detectors can fire -/

/-- C1: the per-symbol evaluation has four detectors that each produce a
detection result on a suitable window: Pump and Breakout on `brkW`
(through `scan_last_candle`), Support-Touch on `stW` — whose Supertrend
direction at the last closed candle is `-1` with a distance-to-support of
`100/159 ≈ 0.63` inside the inclusive band `[0, 3]` — and Accumulation on
the hourly/15-minute pair `accH`/`accM` satisfying the 6-stable-candle
and 4-qualifying-volume-sample criteria. -/
theorem c1_four_detectors :
    (scan_last_candle "BTCUSDT" (.arr brkW)).1.isSome = true ∧
    (scan_last_candle "BTCUSDT" (.arr brkW)).2.isSome = true ∧
    trendAux (stW.take (stW.length - 1)) 10 3 (stW.length - 1 - 1 - 10) = -1 ∧
    support_touch "BTCUSDT" stW 0 3 =
      some ⟨"BTCUSDT", 80, 100/159, -5100/851⟩ ∧
    accumulation "BTCUSDT" accH accM = some ⟨"BTCUSDT", 100, 2⟩ := by
  decide

/-! ### C9: recompute-from-scratch vs incremental roll-forward -/

/-- Incremental roll-forward ATR (spec §9): the accumulator is seeded
once with the simple mean of the first `p` true ranges and then carried
forward one Wilder RMA step per candle, instead of re-running
`calculate_atr` on the whole prefix at every index as the code does. -/
def atrInc (cs : List Candle) (p : ℕ) : ℕ → ℚ
  | 0 => ((trListOf cs).take p).sum / p
  | k+1 => (atrInc cs p k * ((p : ℚ) - 1) + trAt cs (p+(k+1))) / p

/-- Basic lower band computed from the rolled-forward ATR. -/
def basicUpInc (cs : List Candle) (p : ℕ) (m : ℚ) (k : ℕ) : ℚ :=
  srcAt cs (p+k) - m * atrInc cs p k

/-- Basic upper band computed from the rolled-forward ATR. -/
def basicDnInc (cs : List Candle) (p : ℕ) (m : ℚ) (k : ℕ) : ℚ :=
  srcAt cs (p+k) + m * atrInc cs p k

/-- Lower band of the incremental Supertrend variant. -/
def upBandInc (cs : List Candle) (p : ℕ) (m : ℚ) : ℕ → ℚ
  | 0 => basicUpInc cs p m 0
  | k+1 =>
      let b := basicUpInc cs p m (k+1)
      let u1 := upBandInc cs p m k
      if closeAt cs (p+k) > u1 then max b u1 else b

/-- Upper band of the incremental Supertrend variant. -/
def dnBandInc (cs : List Candle) (p : ℕ) (m : ℚ) : ℕ → ℚ
  | 0 => basicDnInc cs p m 0
  | k+1 =>
      let b := basicDnInc cs p m (k+1)
      let d1 := dnBandInc cs p m k
      if closeAt cs (p+k) < d1 then min b d1 else b

/-- Direction of the incremental Supertrend variant. -/
def trendInc (cs : List Candle) (p : ℕ) (m : ℚ) : ℕ → ℤ
  | 0 => 1
  | k+1 =>
      let pt := trendInc cs p m k
      if pt = -1 ∧ closeAt cs (p+(k+1)) > dnBandInc cs p m k then 1
      else if pt = 1 ∧ closeAt cs (p+(k+1)) < upBandInc cs p m k then -1
      else pt

/-- Active value of the incremental Supertrend variant. -/
def stValueInc (cs : List Candle) (p : ℕ) (m : ℚ) (k : ℕ) : ℚ :=
  if trendInc cs p m k = 1 then upBandInc cs p m k else dnBandInc cs p m k

theorem upBandInc_succ (cs : List Candle) (p : ℕ) (m : ℚ) (k : ℕ) :
    upBandInc cs p m (k+1) =
      (if closeAt cs (p+k) > upBandInc cs p m k
       then max (basicUpInc cs p m (k+1)) (upBandInc cs p m k)
       else basicUpInc cs p m (k+1)) := rfl

theorem dnBandInc_succ (cs : List Candle) (p : ℕ) (m : ℚ) (k : ℕ) :
    dnBandInc cs p m (k+1) =
      (if closeAt cs (p+k) < dnBandInc cs p m k
       then min (basicDnInc cs p m (k+1)) (dnBandInc cs p m k)
       else basicDnInc cs p m (k+1)) := rfl

theorem trendInc_succ (cs : List Candle) (p : ℕ) (m : ℚ) (k : ℕ) :
    trendInc cs p m (k+1) =
      (if trendInc cs p m k = -1 ∧ closeAt cs (p+(k+1)) > dnBandInc cs p m k then 1
       else if trendInc cs p m k = 1 ∧ closeAt cs (p+(k+1)) < upBandInc cs p m k then -1
       else trendInc cs p m k) := rfl

theorem candleAt_take (cs : List Candle) (n i : ℕ) (h : i < n) :
    candleAt (cs.take n) i = candleAt cs i := by
  simp [candleAt, List.getD_eq_getElem?_getD, List.getElem?_take, h]

theorem trAt_take (cs : List Candle) (n i : ℕ) (h : i < n) :
    trAt (cs.take n) i = trAt cs i := by
  have h1 : i - 1 < n := lt_of_le_of_lt (Nat.sub_le i 1) h
  simp [trAt, highAt, lowAt, closeAt, candleAt_take _ _ _ h, candleAt_take _ _ _ h1]

theorem trListOf_take (cs : List Candle) (n : ℕ) (h : n ≤ cs.length) :
    trListOf (cs.take n) = (trListOf cs).take (n-1) := by
  unfold trListOf
  rw [List.length_take, Nat.min_eq_left h, ← List.map_take, List.take_range,
    Nat.min_eq_left (Nat.sub_le_sub_right h 1)]
  refine List.map_congr_left (fun j hj => ?_)
  rw [List.mem_range] at hj
  exact trAt_take cs n (j+1) (by omega)

theorem atrW_take (cs : List Candle) (p k : ℕ) (h : p + k + 1 ≤ cs.length) :
    atrW (cs.take (p+k+1)) p =
      rmaFold p (((trListOf cs).take p).sum / p) (((trListOf cs).drop p).take k) := by
  unfold atrW
  rw [trListOf_take cs (p+k+1) h]
  have e1 : ((trListOf cs).take (p+k+1-1)).take p = (trListOf cs).take p := by
    rw [List.take_take, Nat.min_eq_left (by omega)]
  have e2 : ((trListOf cs).take (p+k+1-1)).drop p = ((trListOf cs).drop p).take k := by
    rw [List.drop_take]
    congr 1
    omega
  rw [e1, e2]

theorem rmaFold_append_single (p : ℕ) (seed x : ℚ) (l : List ℚ) :
    rmaFold p seed (l ++ [x]) = (rmaFold p seed l * ((p : ℚ) - 1) + x) / p := by
  unfold rmaFold
  rw [List.foldl_append]
  rfl

theorem atrAt_eq_atrInc (cs : List Candle) (p : ℕ) :
    ∀ k, p + k < cs.length → atrAt cs p (p+k) = atrInc cs p k := by
  intro k
  induction k with
  | zero =>
      intro h
      unfold atrAt atrInc
      rw [atrW_take cs p 0 (by omega)]
      rfl
  | succ k ih =>
      intro h
      have hmem : (trListOf cs)[p+k]? = some (trAt cs (p+(k+1))) := by
        unfold trListOf
        rw [List.getElem?_map, List.getElem?_range (show p+k < cs.length-1 by omega)]
        rfl
      have e : ((trListOf cs).drop p).take (k+1) =
          ((trListOf cs).drop p).take k ++ [trAt cs (p+(k+1))] := by
        rw [List.take_succ, List.getElem?_drop, hmem]
        rfl
      unfold atrAt
      rw [atrW_take cs p (k+1) (by omega), e, rmaFold_append_single,
        ← atrW_take cs p k (by omega)]
      have ih2 := ih (by omega)
      unfold atrAt at ih2
      rw [ih2]
      rfl

theorem basicUp_eq_inc (cs : List Candle) (p : ℕ) (m : ℚ) (k : ℕ)
    (h : p + k < cs.length) : basicUp cs p m (p+k) = basicUpInc cs p m k := by
  unfold basicUp basicUpInc
  rw [atrAt_eq_atrInc cs p k h]

theorem basicDn_eq_inc (cs : List Candle) (p : ℕ) (m : ℚ) (k : ℕ)
    (h : p + k < cs.length) : basicDn cs p m (p+k) = basicDnInc cs p m k := by
  unfold basicDn basicDnInc
  rw [atrAt_eq_atrInc cs p k h]

theorem bands_eq_inc (cs : List Candle) (p : ℕ) (m : ℚ) :
    ∀ k, p + k < cs.length →
      upBandAux cs p m k = upBandInc cs p m k ∧
      dnBandAux cs p m k = dnBandInc cs p m k := by
  intro k
  induction k with
  | zero =>
      intro h
      exact ⟨basicUp_eq_inc cs p m 0 h, basicDn_eq_inc cs p m 0 h⟩
  | succ k ih =>
      intro h
      obtain ⟨ihu, ihd⟩ := ih (by omega)
      constructor
      · rw [upBandAux_succ, upBandInc_succ, ihu, basicUp_eq_inc cs p m (k+1) h]
      · rw [dnBandAux_succ, dnBandInc_succ, ihd, basicDn_eq_inc cs p m (k+1) h]

theorem trendAux_eq_inc (cs : List Candle) (p : ℕ) (m : ℚ) :
    ∀ k, p + k < cs.length → trendAux cs p m k = trendInc cs p m k := by
  intro k
  induction k with
  | zero => intro _; rfl
  | succ k ih =>
      intro h
      obtain ⟨hu, hd⟩ := bands_eq_inc cs p m k (by omega)
      rw [trendAux_succ, trendInc_succ, ih (by omega), hu, hd]

/-- C9: at every shared evaluable index, the index-window recomputation
used by the code (re-running `calculate_atr` from scratch on every
prefix) and the incremental roll-forward variant (carrying ATR, bands
and direction forward one candle at a time) agree on the ATR, both
bands, the direction and the active Supertrend value. -/
theorem c9_recompute_eq_incremental (cs : List Candle) (p : ℕ) (m : ℚ) (k : ℕ)
    (hk : p + k < cs.length) :
    atrAt cs p (p+k) = atrInc cs p k ∧
    upBandAux cs p m k = upBandInc cs p m k ∧
    dnBandAux cs p m k = dnBandInc cs p m k ∧
    trendAux cs p m k = trendInc cs p m k ∧
    stValueAux cs p m k = stValueInc cs p m k := by
  obtain ⟨hu, hd⟩ := bands_eq_inc cs p m k hk
  have ht := trendAux_eq_inc cs p m k hk
  refine ⟨atrAt_eq_atrInc cs p k hk, hu, hd, ht, ?_⟩
  unfold stValueAux stValueInc
  rw [hu, hd, ht]

/-- Witness for `c9_recompute_eq_incremental` at `cs = c2W`, `p = 10`,
`m = 3`, `k = 1`. -/
theorem c9_recompute_eq_incremental_witness :
    10 + 1 < c2W.length ∧
    (atrAt c2W 10 (10+1) = atrInc c2W 10 1 ∧
     upBandAux c2W 10 3 1 = upBandInc c2W 10 3 1 ∧
     dnBandAux c2W 10 3 1 = dnBandInc c2W 10 3 1 ∧
     trendAux c2W 10 3 1 = trendInc c2W 10 3 1 ∧
     stValueAux c2W 10 3 1 = stValueInc c2W 10 3 1) :=
  ⟨by decide, c9_recompute_eq_incremental c2W 10 3 1 (by decide)⟩

/-! ### C6: the RSI contract -/

/-- The Wilder smoothing recursion exactly as the spec words it (§4.1):
seed, then `avg = (avg*(period-1) + sample)/period` once per sample. -/
def wilderRec (p : ℕ) (seed : ℚ) : List ℚ → ℚ
  | [] => seed
  | s :: rest => wilderRec p ((seed * ((p : ℚ) - 1) + s) / p) rest

theorem rmaFold_eq_wilderRec (p : ℕ) (seed : ℚ) (l : List ℚ) :
    rmaFold p seed l = wilderRec p seed l := by
  induction l generalizing seed with
  | nil => rfl
  | cons x xs ih => exact ih ((seed * ((p : ℚ) - 1) + x) / p)

theorem rmaFold_zero (p : ℕ) (l : List ℚ) (h : ∀ x ∈ l, x = 0) :
    rmaFold p 0 l = 0 := by
  induction l with
  | nil => rfl
  | cons x xs ih =>
      have hx := h x (List.mem_cons_self x xs)
      have e : rmaFold p 0 (x :: xs) = rmaFold p ((0 * ((p : ℚ) - 1) + x) / p) xs := rfl
      rw [e, hx]
      simp only [zero_mul, zero_add, zero_div]
      exact ih (fun y hy => h y (List.mem_cons_of_mem x hy))

theorem changes_pos_of_sorted (closes : List ℚ) (h : closes.Sorted (· < ·)) :
    ∀ c ∈ changesOf closes, 0 < c := by
  intro c hc
  unfold changesOf at hc
  rw [List.mem_map] at hc
  obtain ⟨j, hj, rfl⟩ := hc
  rw [List.mem_range] at hj
  have h1 : j + 1 < closes.length := by omega
  have h0 : j < closes.length := by omega
  rw [List.getD_eq_getElem?_getD, List.getD_eq_getElem?_getD,
    List.getElem?_eq_getElem h1, List.getElem?_eq_getElem h0]
  simp only [Option.getD_some]
  have hlt := List.pairwise_iff_get.mp h ⟨j, h0⟩ ⟨j+1, h1⟩ (by simp [Fin.mk_lt_mk])
  exact sub_pos.mpr hlt

/-- C6: `calculate_rsi` returns absent exactly when fewer than
`period + 1` closes are available; otherwise it equals the spec's
seed-then-Wilder-smoothing computation over gains and sign-flipped
losses, returning exactly 100 when the final average loss is 0 and
`round2 (100 - 100/(1 + avgGain/avgLoss))` otherwise; and on any
strictly increasing (sorted) close sequence it returns exactly 100. -/
theorem c6_rsi (closes : List ℚ) (p : ℕ) (_hp : 0 < p) :
    (closes.length < p + 1 ↔ calculate_rsi closes p = none) ∧
    (p + 1 ≤ closes.length →
      calculate_rsi closes p =
        (if wilderRec p ((((changesOf closes).map (fun c => max (-c) 0)).take p).sum / p)
              (((changesOf closes).map (fun c => max (-c) 0)).drop p) = 0
         then some 100
         else some (round2 (100 - 100 /
           (1 + wilderRec p ((((changesOf closes).map (fun c => max c 0)).take p).sum / p)
                  (((changesOf closes).map (fun c => max c 0)).drop p) /
                wilderRec p ((((changesOf closes).map (fun c => max (-c) 0)).take p).sum / p)
                  (((changesOf closes).map (fun c => max (-c) 0)).drop p)))))) ∧
    (p + 1 ≤ closes.length → closes.Sorted (· < ·) →
      calculate_rsi closes p = some 100) := by
  refine ⟨⟨fun h => by simp [calculate_rsi, h], fun h => ?_⟩, fun hlen => ?_, fun hlen hchain => ?_⟩
  · by_contra hb
    rw [calculate_rsi, if_neg hb] at h
    dsimp only at h
    split at h <;> simp_all
  · rw [calculate_rsi, if_neg (not_lt.mpr hlen)]
    simp only [rmaFold_eq_wilderRec]
  · have hall : ∀ x ∈ (changesOf closes).map (fun c => max (-c) 0), x = 0 := by
      intro x hx
      rw [List.mem_map] at hx
      obtain ⟨c, hc, rfl⟩ := hx
      have hpos := changes_pos_of_sorted closes hchain c hc
      exact max_eq_right (by linarith)
    have hseed : (((changesOf closes).map (fun c => max (-c) 0)).take p).sum = 0 :=
      List.sum_eq_zero (fun x hx => hall x (List.take_subset _ _ hx))
    have hzero : rmaFold p ((((changesOf closes).map (fun c => max (-c) 0)).take p).sum / p)
        (((changesOf closes).map (fun c => max (-c) 0)).drop p) = 0 := by
      rw [hseed, zero_div]
      exact rmaFold_zero p _ (fun x hx => hall x (List.drop_subset _ _ hx))
    rw [calculate_rsi, if_neg (not_lt.mpr hlen)]
    simp only [hzero, if_pos]

/-- A strictly increasing 16-close sequence. -/
def incr16 : List ℚ := (List.range 16).map (fun i => (i : ℚ))

/-- Witness for `c6_rsi`: 16 strictly increasing closes with
`period = 14` yield RSI exactly 100. -/
theorem c6_rsi_witness :
    ((0:ℕ) < 14 ∧ 14 + 1 ≤ incr16.length ∧ incr16.Sorted (· < ·)) ∧
    calculate_rsi incr16 14 = some 100 :=
  ⟨⟨by decide, by decide, by decide⟩,
   (c6_rsi incr16 14 (by decide)).2.2 (by decide) (by decide)⟩

/-! ### Evaluating the scan under no-exception hypotheses -/

theorem mem_pumpIdxList (lastIdx i : ℕ) :
    i ∈ pumpIdxList lastIdx ↔ lastIdx - 250 < i ∧ i < lastIdx := by
  unfold pumpIdxList
  rw [List.mem_reverse, List.mem_range'_1]
  omega

theorem pumpIdxList_pairwise (lastIdx : ℕ) :
    (pumpIdxList lastIdx).Pairwise (· > ·) := by
  unfold pumpIdxList
  rw [List.pairwise_reverse]
  exact List.pairwise_lt_range' _ _

/-- What the `candles_since_last` pump loop computes on a visited-index
list with no zero divisor: either no visited index qualifies and the
default 250 is returned, or the first (most recent) qualifying index `i`
is returned as the distance `lastIdx - i`. -/
theorem pumpLoopE_spec (cs : List Candle) (lastIdx : ℕ) (L : List ℕ)
    (hnz : ∀ i ∈ L, closeAt cs (i-1) ≠ 0) (hsort : L.Pairwise (· > ·)) :
    (pumpLoopE cs lastIdx L = some 250 ∧ ∀ i ∈ L, ¬(3 ≤ pctAt cs i)) ∨
    (∃ i ∈ L, pumpLoopE cs lastIdx L = some (lastIdx - i) ∧ 3 ≤ pctAt cs i ∧
      ∀ j ∈ L, i < j → ¬(3 ≤ pctAt cs j)) := by
  induction L with
  | nil => exact Or.inl ⟨rfl, by simp⟩
  | cons i rest ih =>
      have hz := hnz i (List.mem_cons_self i rest)
      by_cases hq : 3 ≤ pctAt cs i
      · right
        refine ⟨i, List.mem_cons_self i rest, ?_, hq, ?_⟩
        · unfold pumpLoopE
          rw [if_neg hz, if_pos hq]
        · intro j hj hij
          rcases List.mem_cons.mp hj with rfl | hjr
          · exact absurd hij (lt_irrefl j)
          · have := (List.pairwise_cons.mp hsort).1 j hjr
            exact absurd hij (by omega)
      · have hstep : pumpLoopE cs lastIdx (i :: rest) = pumpLoopE cs lastIdx rest := by
          show (if closeAt cs (i-1) = 0 then none
                else if pctAt cs i ≥ 3 then some (lastIdx - i)
                else pumpLoopE cs lastIdx rest) = pumpLoopE cs lastIdx rest
          rw [if_neg hz, if_neg hq]
        have hrec := ih (fun x hx => hnz x (List.mem_cons_of_mem i hx))
          (List.pairwise_cons.mp hsort).2
        rcases hrec with ⟨h1, h2⟩ | ⟨j, hjm, h1, h2, h3⟩
        · left
          refine ⟨hstep ▸ h1, fun x hx => ?_⟩
          rcases List.mem_cons.mp hx with rfl | hxr
          · exact hq
          · exact h2 x hxr
        · right
          refine ⟨j, List.mem_cons_of_mem i hjm, hstep ▸ h1, h2, fun x hx hjx => ?_⟩
          rcases List.mem_cons.mp hx with rfl | hxr
          · exact hq
          · exact h3 x hxr hjx

/-- The `candles_since_last` value of the pump branch. -/
def pumpSince (cs : List Candle) (lastIdx : ℕ) : ℕ :=
  (pumpLoopE cs lastIdx (pumpIdxList lastIdx)).getD 250

theorem closeAt_pos (cs : List Candle) (hcl : ∀ c ∈ cs, 0 < c.close)
    (i : ℕ) (h : i < cs.length) : 0 < closeAt cs i := by
  unfold closeAt candleAt
  rw [List.getD_eq_getElem?_getD, List.getElem?_eq_getElem h]
  exact hcl _ (List.getElem_mem h)

theorem stAt_eq (cs : List Candle) (h20 : 20 ≤ cs.length) :
    stAt cs (cs.length - 2) =
      some (trendAux (cs.take (cs.length - 1)) 10 3 (cs.length - 12),
            trendAux (cs.take (cs.length - 1)) 10 3 (cs.length - 13),
            upBandAux (cs.take (cs.length - 1)) 10 3 (cs.length - 12),
            dnBandAux (cs.take (cs.length - 1)) 10 3 (cs.length - 12),
            upBandAux (cs.take (cs.length - 1)) 10 3 (cs.length - 13),
            dnBandAux (cs.take (cs.length - 1)) 10 3 (cs.length - 13)) := by
  have e : cs.length - 2 + 1 = cs.length - 1 := by omega
  unfold stAt calculate_supertrend
  rw [e]
  have hlen : (cs.take (cs.length - 1)).length = cs.length - 1 := by
    rw [List.length_take]
    omega
  rw [hlen, if_neg (by omega)]
  have e2 : cs.length - 1 - 1 - 10 = cs.length - 12 := by omega
  have e3 : cs.length - 12 - 1 = cs.length - 13 := by omega
  simp only [e2, e3]

/-- Full evaluation of `scan_last_candle` on an accepted window whose
closes are positive and whose relevant band values are nonzero (so that
no division-by-zero exception fires). -/
theorem scan_eval (s : String) (cs : List Candle)
    (h20 : 20 ≤ cs.length) (hcl : ∀ c ∈ cs, 0 < c.close)
    (hdn : dnBandAux (cs.take (cs.length - 1)) 10 3 (cs.length - 13) ≠ 0)
    (hup : upBandAux (cs.take (cs.length - 1)) 10 3 (cs.length - 12) ≠ 0) :
    scan_last_candle s (.arr cs) =
      ((if 3 ≤ pctAt cs (cs.length - 2) then
          some ⟨s, pctAt cs (cs.length - 2), closeAt cs (cs.length - 2),
                volUsdtAt cs (cs.length - 2), vmAt cs (cs.length - 2),
                rsiAt cs (cs.length - 2), pumpSince cs (cs.length - 2),
                hourBucket (candleAt cs (cs.length - 2)).openTime⟩
        else none),
       (if trendAux (cs.take (cs.length - 1)) 10 3 (cs.length - 13) = -1 ∧
           trendAux (cs.take (cs.length - 1)) 10 3 (cs.length - 12) = 1 then
          some ⟨s, pctAt cs (cs.length - 2), closeAt cs (cs.length - 2),
                volUsdtAt cs (cs.length - 2), vmAt cs (cs.length - 2),
                rsiAt cs (cs.length - 2),
                trendAux (cs.take (cs.length - 1)) 10 3 (cs.length - 12),
                dnBandAux (cs.take (cs.length - 1)) 10 3 (cs.length - 13),
                (closeAt cs (cs.length - 2) -
                    dnBandAux (cs.take (cs.length - 1)) 10 3 (cs.length - 13)) /
                  dnBandAux (cs.take (cs.length - 1)) 10 3 (cs.length - 13) * 100,
                upBandAux (cs.take (cs.length - 1)) 10 3 (cs.length - 12),
                (closeAt cs (cs.length - 2) -
                    upBandAux (cs.take (cs.length - 1)) 10 3 (cs.length - 12)) /
                  upBandAux (cs.take (cs.length - 1)) 10 3 (cs.length - 12) * 100,
                breakoutLoop cs (cs.length - 2) (List.range' 1 (min 250 (cs.length - 2) - 1)),
                hourBucket (candleAt cs (cs.length - 2)).openTime⟩
        else none)) := by
  have hpos : ∀ i, i < cs.length → 0 < closeAt cs i := fun i hi => closeAt_pos cs hcl i hi
  have hnzL : ∀ i ∈ pumpIdxList (cs.length - 2), closeAt cs (i-1) ≠ 0 := by
    intro i hi
    have hb := (mem_pumpIdxList _ i).mp hi
    exact ne_of_gt (hpos (i-1) (by omega))
  have hloopSome : pumpLoopE cs (cs.length - 2) (pumpIdxList (cs.length - 2)) =
      some (pumpSince cs (cs.length - 2)) := by
    rcases pumpLoopE_spec cs (cs.length - 2) _ hnzL (pumpIdxList_pairwise _) with
      ⟨h1, _⟩ | ⟨i, _, h1, _, _⟩ <;> simp [pumpSince, h1]
  have hpump : pumpPartE s cs (cs.length - 2) =
      some (if 3 ≤ pctAt cs (cs.length - 2) then
          some ⟨s, pctAt cs (cs.length - 2), closeAt cs (cs.length - 2),
                volUsdtAt cs (cs.length - 2), vmAt cs (cs.length - 2),
                rsiAt cs (cs.length - 2), pumpSince cs (cs.length - 2),
                hourBucket (candleAt cs (cs.length - 2)).openTime⟩
        else none) := by
    unfold pumpPartE
    by_cases hq : pctAt cs (cs.length - 2) ≥ 3
    · rw [if_pos hq, hloopSome, if_pos hq]
      rfl
    · rw [if_neg hq, if_neg hq]
  have hbrk : breakPartE s cs (cs.length - 2) =
      some (if trendAux (cs.take (cs.length - 1)) 10 3 (cs.length - 13) = -1 ∧
           trendAux (cs.take (cs.length - 1)) 10 3 (cs.length - 12) = 1 then
          some ⟨s, pctAt cs (cs.length - 2), closeAt cs (cs.length - 2),
                volUsdtAt cs (cs.length - 2), vmAt cs (cs.length - 2),
                rsiAt cs (cs.length - 2),
                trendAux (cs.take (cs.length - 1)) 10 3 (cs.length - 12),
                dnBandAux (cs.take (cs.length - 1)) 10 3 (cs.length - 13),
                (closeAt cs (cs.length - 2) -
                    dnBandAux (cs.take (cs.length - 1)) 10 3 (cs.length - 13)) /
                  dnBandAux (cs.take (cs.length - 1)) 10 3 (cs.length - 13) * 100,
                upBandAux (cs.take (cs.length - 1)) 10 3 (cs.length - 12),
                (closeAt cs (cs.length - 2) -
                    upBandAux (cs.take (cs.length - 1)) 10 3 (cs.length - 12)) /
                  upBandAux (cs.take (cs.length - 1)) 10 3 (cs.length - 12) * 100,
                breakoutLoop cs (cs.length - 2) (List.range' 1 (min 250 (cs.length - 2) - 1)),
                hourBucket (candleAt cs (cs.length - 2)).openTime⟩
        else none) := by
    unfold breakPartE
    rw [stAt_eq cs h20]
    dsimp only
    by_cases hflip : trendAux (cs.take (cs.length - 1)) 10 3 (cs.length - 13) = -1 ∧
        trendAux (cs.take (cs.length - 1)) 10 3 (cs.length - 12) = 1
    · rw [if_pos hflip, if_neg hdn, if_neg hup, if_pos hflip]
    · rw [if_neg hflip, if_neg hflip]
  show (if cs.length < 20 then (none, none)
        else (scanAt s cs (cs.length - 2)).getD (none, none)) = _
  rw [if_neg (not_lt.mpr h20)]
  unfold scanAt
  rw [if_neg (ne_of_gt (hpos (cs.length - 2 - 1) (by omega))), hpump, hbrk]
  rfl

/-! ### C7: the Pump detector -/

/-- C7: on an accepted window (with positive closes and nonzero band
values, so no exception path fires), the pump slot of `scan_last_candle`
is non-absent exactly when the last closed candle's percentage move is at
least the 3% threshold, and when it fires it reports that move, that
close, and as `candlesSince` either the distance to the most recent prior
index with a qualifying move (with no qualifying index more recent), or
the default 250 when no index in the bounded backward scan qualifies. -/
theorem c7_pump (s : String) (cs : List Candle)
    (h20 : 20 ≤ cs.length) (hcl : ∀ c ∈ cs, 0 < c.close)
    (hdn : dnBandAux (cs.take (cs.length - 1)) 10 3 (cs.length - 13) ≠ 0)
    (hup : upBandAux (cs.take (cs.length - 1)) 10 3 (cs.length - 12) ≠ 0) :
    ((scan_last_candle s (.arr cs)).1.isSome ↔ 3 ≤ pctAt cs (cs.length - 2)) ∧
    (∀ pr, (scan_last_candle s (.arr cs)).1 = some pr →
      pr.pct = pctAt cs (cs.length - 2) ∧
      pr.close = closeAt cs (cs.length - 2) ∧
      ((pr.candlesSince = 250 ∧
          ∀ i, cs.length - 2 - 250 < i → i < cs.length - 2 → ¬(3 ≤ pctAt cs i)) ∨
       (1 ≤ pr.candlesSince ∧ pr.candlesSince < 250 ∧
          3 ≤ pctAt cs (cs.length - 2 - pr.candlesSince) ∧
          ∀ j, cs.length - 2 - pr.candlesSince < j → j < cs.length - 2 →
            ¬(3 ≤ pctAt cs j)))) := by
  have hpos : ∀ i, i < cs.length → 0 < closeAt cs i := fun i hi => closeAt_pos cs hcl i hi
  have hnzL : ∀ i ∈ pumpIdxList (cs.length - 2), closeAt cs (i-1) ≠ 0 := by
    intro i hi
    have hb := (mem_pumpIdxList _ i).mp hi
    exact ne_of_gt (hpos (i-1) (by omega))
  have hsc := scan_eval s cs h20 hcl hdn hup
  constructor
  · rw [hsc]
    dsimp only
    by_cases hq : 3 ≤ pctAt cs (cs.length - 2)
    · simp [hq]
    · simp [hq]
  · intro pr hpr
    rw [hsc] at hpr
    dsimp only at hpr
    by_cases hq : 3 ≤ pctAt cs (cs.length - 2)
    · rw [if_pos hq] at hpr
      cases Option.some.inj hpr
      refine ⟨rfl, rfl, ?_⟩
      dsimp only
      rcases pumpLoopE_spec cs (cs.length - 2) _ hnzL (pumpIdxList_pairwise _) with
        ⟨h1, h2⟩ | ⟨i, him, h1, hq2, h3⟩
      · left
        constructor
        · simp [pumpSince, h1]
        · intro i hi1 hi2
          exact h2 i ((mem_pumpIdxList _ i).mpr ⟨hi1, hi2⟩)
      · right
        have hmem := (mem_pumpIdxList _ i).mp him
        have hps : pumpSince cs (cs.length - 2) = cs.length - 2 - i := by
          simp [pumpSince, h1]
        rw [hps]
        have hi : cs.length - 2 - (cs.length - 2 - i) = i := by omega
        refine ⟨by omega, by omega, ?_, ?_⟩
        · rw [hi]
          exact hq2
        · intro j hj1 hj2
          rw [hi] at hj1
          exact h3 j ((mem_pumpIdxList _ j).mpr ⟨by omega, hj2⟩) hj1
    · rw [if_neg hq] at hpr
      exact absurd hpr (by simp)

/-- Witness for `c7_pump` on `brkW`. -/
theorem c7_pump_witness :
    (20 ≤ brkW.length ∧ (∀ c ∈ brkW, 0 < c.close) ∧
     dnBandAux (brkW.take (brkW.length - 1)) 10 3 (brkW.length - 13) ≠ 0 ∧
     upBandAux (brkW.take (brkW.length - 1)) 10 3 (brkW.length - 12) ≠ 0) ∧
    ((scan_last_candle "BTCUSDT" (.arr brkW)).1.isSome ↔
      3 ≤ pctAt brkW (brkW.length - 2)) :=
  ⟨⟨by decide, by decide, by decide, by decide⟩,
   (c7_pump "BTCUSDT" brkW (by decide) (by decide) (by decide) (by decide)).1⟩

/-! ### C4: the Breakout detector -/

/-- C4: on an accepted window (with positive closes and nonzero band
values, so no exception path fires), the breakout slot of
`scan_last_candle` is non-absent exactly when the Supertrend direction at
the last closed candle is `+1` while the direction at the preceding
evaluated index is `-1`; when it fires it reports `oldRedLine` equal to
the previous index's upper (downtrend/resistance) band, `newGreenLine`
equal to the current index's lower (uptrend/support) band, and the
percentage distances of the close from each. -/
theorem c4_breakout (s : String) (cs : List Candle)
    (h20 : 20 ≤ cs.length) (hcl : ∀ c ∈ cs, 0 < c.close)
    (hdn : dnBandAux (cs.take (cs.length - 1)) 10 3 (cs.length - 13) ≠ 0)
    (hup : upBandAux (cs.take (cs.length - 1)) 10 3 (cs.length - 12) ≠ 0) :
    ((scan_last_candle s (.arr cs)).2.isSome ↔
      (trendAux (cs.take (cs.length - 1)) 10 3 (cs.length - 12) = 1 ∧
       trendAux (cs.take (cs.length - 1)) 10 3 (cs.length - 13) = -1)) ∧
    (∀ b, (scan_last_candle s (.arr cs)).2 = some b →
      b.oldRedLine = dnBandAux (cs.take (cs.length - 1)) 10 3 (cs.length - 13) ∧
      b.newGreenLine = upBandAux (cs.take (cs.length - 1)) 10 3 (cs.length - 12) ∧
      b.redDistance = (closeAt cs (cs.length - 2) - b.oldRedLine) / b.oldRedLine * 100 ∧
      b.greenDistance =
        (closeAt cs (cs.length - 2) - b.newGreenLine) / b.newGreenLine * 100) := by
  have hsc := scan_eval s cs h20 hcl hdn hup
  constructor
  · rw [hsc]
    dsimp only
    by_cases hflip : trendAux (cs.take (cs.length - 1)) 10 3 (cs.length - 13) = -1 ∧
        trendAux (cs.take (cs.length - 1)) 10 3 (cs.length - 12) = 1
    · rw [if_pos hflip]
      simp [hflip.1, hflip.2]
    · rw [if_neg hflip]
      simp only [Option.isSome_none, Bool.false_eq_true, false_iff]
      intro hcon
      exact hflip ⟨hcon.2, hcon.1⟩
  · intro b hb
    rw [hsc] at hb
    dsimp only at hb
    by_cases hflip : trendAux (cs.take (cs.length - 1)) 10 3 (cs.length - 13) = -1 ∧
        trendAux (cs.take (cs.length - 1)) 10 3 (cs.length - 12) = 1
    · rw [if_pos hflip] at hb
      cases Option.some.inj hb
      exact ⟨rfl, rfl, rfl, rfl⟩
    · rw [if_neg hflip] at hb
      exact absurd hb (by simp)

/-- Witness for `c4_breakout` on `brkW`. -/
theorem c4_breakout_witness :
    (20 ≤ brkW.length ∧ (∀ c ∈ brkW, 0 < c.close) ∧
     dnBandAux (brkW.take (brkW.length - 1)) 10 3 (brkW.length - 13) ≠ 0 ∧
     upBandAux (brkW.take (brkW.length - 1)) 10 3 (brkW.length - 12) ≠ 0) ∧
    ((scan_last_candle "BTCUSDT" (.arr brkW)).2.isSome ↔
      (trendAux (brkW.take (brkW.length - 1)) 10 3 (brkW.length - 12) = 1 ∧
       trendAux (brkW.take (brkW.length - 1)) 10 3 (brkW.length - 13) = -1)) :=
  ⟨⟨by decide, by decide, by decide, by decide⟩,
   (c4_breakout "BTCUSDT" brkW (by decide) (by decide) (by decide) (by decide)).1⟩

/-! ### C8: fail-closed interface and exclusion of the forming candle -/

theorem candleAt_append (cs : List Candle) (x : Candle) (i : ℕ) (h : i < cs.length) :
    candleAt (cs ++ [x]) i = candleAt cs i := by
  unfold candleAt
  rw [List.getD_eq_getElem?_getD, List.getD_eq_getElem?_getD, List.getElem?_append,
    if_pos h]

theorem closeAt_append (cs : List Candle) (x : Candle) (i : ℕ) (h : i < cs.length) :
    closeAt (cs ++ [x]) i = closeAt cs i := by
  unfold closeAt
  rw [candleAt_append cs x i h]

theorem pctAt_append (cs : List Candle) (x : Candle) (i : ℕ) (h : i < cs.length) :
    pctAt (cs ++ [x]) i = pctAt cs i := by
  unfold pctAt
  rw [closeAt_append cs x i h, closeAt_append cs x (i-1) (by omega)]

theorem take_append_left (cs : List Candle) (x : Candle) (n : ℕ) (h : n ≤ cs.length) :
    (cs ++ [x]).take n = cs.take n := by
  rw [List.take_append_of_le_length h]

theorem volUsdtAt_append (cs : List Candle) (x : Candle) (i : ℕ) (h : i < cs.length) :
    volUsdtAt (cs ++ [x]) i = volUsdtAt cs i := by
  unfold volUsdtAt
  rw [candleAt_append cs x i h]

theorem maAt_append (cs : List Candle) (x : Candle) (lastIdx : ℕ)
    (h : lastIdx < cs.length) : maAt (cs ++ [x]) lastIdx = maAt cs lastIdx := by
  unfold maAt
  have e : ∀ j ∈ List.range' (lastIdx - 19) (lastIdx + 1 - (lastIdx - 19)),
      volUsdtAt (cs ++ [x]) j = volUsdtAt cs j := by
    intro j hj
    have := List.mem_range'_1.mp hj
    exact volUsdtAt_append cs x j (by omega)
  rw [List.map_congr_left e]

theorem vmAt_append (cs : List Candle) (x : Candle) (lastIdx : ℕ)
    (h : lastIdx < cs.length) : vmAt (cs ++ [x]) lastIdx = vmAt cs lastIdx := by
  unfold vmAt
  rw [maAt_append cs x lastIdx h, volUsdtAt_append cs x lastIdx h]

theorem rsiAt_append (cs : List Candle) (x : Candle) (lastIdx : ℕ)
    (h : lastIdx < cs.length) : rsiAt (cs ++ [x]) lastIdx = rsiAt cs lastIdx := by
  unfold rsiAt
  have e : ∀ j ∈ List.range (lastIdx + 1),
      closeAt (cs ++ [x]) j = closeAt cs j := by
    intro j hj
    have := List.mem_range.mp hj
    exact closeAt_append cs x j (by omega)
  rw [List.map_congr_left e]

theorem stAt_append (cs : List Candle) (x : Candle) (lastIdx : ℕ)
    (h : lastIdx < cs.length) : stAt (cs ++ [x]) lastIdx = stAt cs lastIdx := by
  unfold stAt
  rw [take_append_left cs x (lastIdx + 1) (by omega)]

theorem pumpLoopE_append (cs : List Candle) (x : Candle) (lastIdx : ℕ) (L : List ℕ)
    (hL : ∀ i ∈ L, i < cs.length) :
    pumpLoopE (cs ++ [x]) lastIdx L = pumpLoopE cs lastIdx L := by
  induction L with
  | nil => rfl
  | cons i rest ih =>
      have hi := hL i (List.mem_cons_self i rest)
      show (if closeAt (cs ++ [x]) (i-1) = 0 then none
            else if pctAt (cs ++ [x]) i ≥ 3 then some (lastIdx - i)
            else pumpLoopE (cs ++ [x]) lastIdx rest) = _
      rw [closeAt_append cs x (i-1) (by omega), pctAt_append cs x i hi,
        ih (fun j hj => hL j (List.mem_cons_of_mem i hj))]
      rfl

theorem breakoutLoop_append (cs : List Candle) (x : Candle) (lastIdx : ℕ)
    (h : lastIdx < cs.length) (L : List ℕ) :
    breakoutLoop (cs ++ [x]) lastIdx L = breakoutLoop cs lastIdx L := by
  induction L with
  | nil => rfl
  | cons lb rest ih =>
      show (if lastIdx - lb < 15 then 250
            else match calculate_supertrend ((cs ++ [x]).take (lastIdx - lb + 1)) 10 3 with
                 | some (t, pt, _, _, _, _) =>
                     if pt = -1 ∧ t = 1 then lb else breakoutLoop (cs ++ [x]) lastIdx rest
                 | none => breakoutLoop (cs ++ [x]) lastIdx rest) = _
      rw [take_append_left cs x (lastIdx - lb + 1) (by omega), ih]
      rfl

theorem pumpPartE_append (s : String) (cs : List Candle) (x : Candle) (lastIdx : ℕ)
    (h : lastIdx < cs.length) :
    pumpPartE s (cs ++ [x]) lastIdx = pumpPartE s cs lastIdx := by
  unfold pumpPartE
  rw [pctAt_append cs x lastIdx h, closeAt_append cs x lastIdx h,
    volUsdtAt_append cs x lastIdx h, vmAt_append cs x lastIdx h,
    rsiAt_append cs x lastIdx h, candleAt_append cs x lastIdx h,
    pumpLoopE_append cs x lastIdx (pumpIdxList lastIdx)
      (fun i hi => by
        have := (mem_pumpIdxList lastIdx i).mp hi
        omega)]

theorem breakPartE_append (s : String) (cs : List Candle) (x : Candle) (lastIdx : ℕ)
    (h : lastIdx < cs.length) :
    breakPartE s (cs ++ [x]) lastIdx = breakPartE s cs lastIdx := by
  unfold breakPartE
  rw [stAt_append cs x lastIdx h, pctAt_append cs x lastIdx h,
    closeAt_append cs x lastIdx h, volUsdtAt_append cs x lastIdx h,
    vmAt_append cs x lastIdx h, rsiAt_append cs x lastIdx h,
    candleAt_append cs x lastIdx h, breakoutLoop_append cs x lastIdx h]

theorem scanAt_append (s : String) (cs : List Candle) (x : Candle) (lastIdx : ℕ)
    (h : lastIdx < cs.length) :
    scanAt s (cs ++ [x]) lastIdx = scanAt s cs lastIdx := by
  unfold scanAt
  rw [closeAt_append cs x (lastIdx - 1) (by omega), pumpPartE_append s cs x lastIdx h,
    breakPartE_append s cs x lastIdx h]

/-- C8: the per-symbol scan fails closed and never raises at its
interface: an object (dict) payload, an empty or short (< 20 candles)
array, and any internal evaluation failure (the modelled exception path)
all yield `(none, none)`; and on accepted payloads the evaluation treats
index `length - 2` as the last closed candle and ignores the final
(possibly still-forming) element entirely: replacing it with any other
candle leaves the result unchanged. -/
theorem c8_fail_closed (s : String) :
    scan_last_candle s .obj = (none, none) ∧
    (∀ cs, cs.length < 20 → scan_last_candle s (.arr cs) = (none, none)) ∧
    (∀ cs, scanAt s cs (cs.length - 2) = none →
      scan_last_candle s (.arr cs) = (none, none)) ∧
    (∀ cs (x y : Candle), 19 ≤ cs.length →
      scan_last_candle s (.arr (cs ++ [x])) = scan_last_candle s (.arr (cs ++ [y]))) := by
  refine ⟨rfl, fun cs h => ?_, fun cs h => ?_, fun cs x y h => ?_⟩
  · show (if cs.length < 20 then (none, none)
          else (scanAt s cs (cs.length - 2)).getD (none, none)) = (none, none)
    rw [if_pos h]
  · show (if cs.length < 20 then (none, none)
          else (scanAt s cs (cs.length - 2)).getD (none, none)) = (none, none)
    by_cases h20 : cs.length < 20
    · rw [if_pos h20]
    · rw [if_neg h20, h]
      rfl
  · have hlen : (cs ++ [x]).length = cs.length + 1 := by simp
    have hleny : (cs ++ [y]).length = cs.length + 1 := by simp
    show (if (cs ++ [x]).length < 20 then (none, none)
          else (scanAt s (cs ++ [x]) ((cs ++ [x]).length - 2)).getD (none, none)) =
         (if (cs ++ [y]).length < 20 then (none, none)
          else (scanAt s (cs ++ [y]) ((cs ++ [y]).length - 2)).getD (none, none))
    rw [hlen, hleny, if_neg (by omega), if_neg (by omega),
      scanAt_append s cs x (cs.length + 1 - 2) (by omega),
      scanAt_append s cs y (cs.length + 1 - 2) (by omega)]

/-- Witness for `c8_fail_closed`: the short-payload conjunct at a
1-candle array and the forming-candle-irrelevance conjunct on `brkW`
with two different final candles. -/
theorem c8_fail_closed_witness :
    ((0:ℕ) < 20 ∧ 19 ≤ (brkW.take 19).length) ∧
    scan_last_candle "BTCUSDT" (.arr []) = (none, none) ∧
    scan_last_candle "BTCUSDT"
        (.arr (brkW.take 19 ++ [⟨19 * 3600000, 95, 95, 95, 95, 1⟩])) =
      scan_last_candle "BTCUSDT"
        (.arr (brkW.take 19 ++ [⟨19 * 3600000, 95, 200, 90, 160, 7⟩])) :=
  ⟨⟨by decide, by decide⟩,
   (c8_fail_closed "BTCUSDT").2.1 [] (by decide),
   (c8_fail_closed "BTCUSDT").2.2.2 (brkW.take 19) _ _ (by decide)⟩

/-! ### C5: at-most-once alerting -/

theorem pumpPartE_symbol (s : String) (cs : List Candle) (lastIdx : ℕ) (p : PumpRes)
    (h : pumpPartE s cs lastIdx = some (some p)) : p.symbol = s := by
  unfold pumpPartE at h
  split at h
  · cases hl : pumpLoopE cs lastIdx (pumpIdxList lastIdx) with
    | none => rw [hl] at h; simp at h
    | some d =>
        rw [hl] at h
        simp only [Option.map_some', Option.some.injEq] at h
        rw [← h]
  · simp at h

theorem breakPartE_symbol (s : String) (cs : List Candle) (lastIdx : ℕ) (b : BreakoutRes)
    (h : breakPartE s cs lastIdx = some (some b)) : b.symbol = s := by
  unfold breakPartE at h
  split at h
  · simp at h
  · split at h
    · split at h
      · simp at h
      · split at h
        · simp at h
        · simp only [Option.some.injEq] at h
          rw [← h]
    · simp at h

theorem scanAt_inner (s : String) (cs : List Candle) (lastIdx : ℕ)
    (pr : Option PumpRes × Option BreakoutRes)
    (h : scanAt s cs lastIdx = some pr) :
    pumpPartE s cs lastIdx = some pr.1 ∧ breakPartE s cs lastIdx = some pr.2 := by
  unfold scanAt at h
  split at h
  · simp at h
  · cases hp : pumpPartE s cs lastIdx with
    | none => rw [hp] at h; simp at h
    | some pp =>
        cases hb : breakPartE s cs lastIdx with
        | none => rw [hp, hb] at h; simp at h
        | some bb =>
            rw [hp, hb] at h
            simp only [Option.some_bind, Option.map_some', Option.some.injEq] at h
            rw [← h]
            exact ⟨rfl, rfl⟩

theorem scan_symbol_pump (s : String) (k : Klines) (p : PumpRes)
    (h : (scan_last_candle s k).1 = some p) : p.symbol = s := by
  cases k with
  | obj => exact Option.noConfusion (show (none : Option PumpRes) = some p from h)
  | arr cs =>
      have h2 : (if cs.length < 20 then
            ((none, none) : Option PumpRes × Option BreakoutRes)
          else (scanAt s cs (cs.length - 2)).getD (none, none)).1 = some p := h
      by_cases h20 : cs.length < 20
      · rw [if_pos h20] at h2
        exact Option.noConfusion h2
      · rw [if_neg h20] at h2
        cases hs : scanAt s cs (cs.length - 2) with
        | none =>
            rw [hs] at h2
            exact Option.noConfusion h2
        | some pr =>
            rw [hs] at h2
            simp only [Option.getD_some] at h2
            have hin := (scanAt_inner s cs (cs.length - 2) pr hs).1
            rw [h2] at hin
            exact pumpPartE_symbol s cs (cs.length - 2) p hin

theorem scan_symbol_breakout (s : String) (k : Klines) (b : BreakoutRes)
    (h : (scan_last_candle s k).2 = some b) : b.symbol = s := by
  cases k with
  | obj => exact Option.noConfusion (show (none : Option BreakoutRes) = some b from h)
  | arr cs =>
      have h2 : (if cs.length < 20 then
            ((none, none) : Option PumpRes × Option BreakoutRes)
          else (scanAt s cs (cs.length - 2)).getD (none, none)).2 = some b := h
      by_cases h20 : cs.length < 20
      · rw [if_pos h20] at h2
        exact Option.noConfusion h2
      · rw [if_neg h20] at h2
        cases hs : scanAt s cs (cs.length - 2) with
        | none =>
            rw [hs] at h2
            exact Option.noConfusion h2
        | some pr =>
            rw [hs] at h2
            simp only [Option.getD_some] at h2
            have hin := (scanAt_inner s cs (cs.length - 2) pr hs).2
            rw [h2] at hin
            exact breakPartE_symbol s cs (cs.length - 2) b hin

theorem pumpsOf_keys_nodup (symbols : List String) (hnd : symbols.Nodup)
    (data : String → Klines) : ((pumpsOf symbols data).map pumpKey).Nodup := by
  unfold pumpsOf
  rw [List.map_filterMap]
  refine List.Nodup.filterMap (fun a a2 k hka hka2 => ?_) hnd
  simp only [Option.mem_def, Option.map_eq_some'] at hka hka2
  obtain ⟨pa, hpa, hk⟩ := hka
  obtain ⟨pb, hpb, hk2⟩ := hka2
  have ha := scan_symbol_pump a (data a) pa hpa
  have hb := scan_symbol_pump a2 (data a2) pb hpb
  have hsymb : pa.symbol = pb.symbol := by
    have e : (pumpKey pa).1 = (pumpKey pb).1 := by rw [hk, hk2]
    simpa [pumpKey] using e
  rw [← ha, ← hb, hsymb]

theorem breakoutsOf_keys_nodup (symbols : List String) (hnd : symbols.Nodup)
    (data : String → Klines) :
    ((breakoutsOf symbols data).map breakoutKey).Nodup := by
  unfold breakoutsOf
  rw [List.map_filterMap]
  refine List.Nodup.filterMap (fun a a2 k hka hka2 => ?_) hnd
  simp only [Option.mem_def, Option.map_eq_some'] at hka hka2
  obtain ⟨pa, hpa, hk⟩ := hka
  obtain ⟨pb, hpb, hk2⟩ := hka2
  have ha := scan_symbol_breakout a (data a) pa hpa
  have hb := scan_symbol_breakout a2 (data a2) pb hpb
  have hsymb : pa.symbol = pb.symbol := by
    have e : (breakoutKey pa).1 = (breakoutKey pb).1 := by rw [hk, hk2]
    simpa [breakoutKey] using e
  rw [← ha, ← hb, hsymb]

theorem freshOf_keys_not_mem {A K : Type} [DecidableEq K] (key : A → K)
    (rep : List K) (c : List A) :
    ∀ k ∈ (freshOf key rep c).map key, k ∉ rep := by
  intro k hk
  rw [List.mem_map] at hk
  obtain ⟨a, ha, rfl⟩ := hk
  unfold freshOf at ha
  rw [List.mem_filter] at ha
  have hnot := ha.2
  simp only [decide_eq_true_eq] at hnot
  exact hnot

theorem freshOf_keys_nodup {A K : Type} [DecidableEq K] (key : A → K)
    (rep : List K) (c : List A) (hnd : (c.map key).Nodup) :
    ((freshOf key rep c).map key).Nodup :=
  ((List.filter_sublist c).map key).nodup hnd

theorem runCycles_cons {A K : Type} [DecidableEq K] (key : A → K) (c : List A)
    (cycles : List (List A)) (rep : List K) :
    runCycles key (c :: cycles) rep =
      freshOf key rep c ::
        runCycles key cycles (rep ++ (freshOf key rep c).map key) := rfl

/-- Core dedup invariant: over any run of cycles whose per-cycle key
lists are duplicate-free, the concatenation of all emitted fresh alerts
carries pairwise-distinct keys, and none of those keys was already in
the reported set the run started from. -/
theorem runCycles_keys_nodup {A K : Type} [DecidableEq K] (key : A → K) :
    ∀ (cycles : List (List A)) (rep : List K),
      (∀ c ∈ cycles, (c.map key).Nodup) →
      (((runCycles key cycles rep).flatten.map key).Nodup ∧
       ∀ k ∈ (runCycles key cycles rep).flatten.map key, k ∉ rep) := by
  intro cycles
  induction cycles with
  | nil =>
      intro rep _
      simp [runCycles]
  | cons c cycles ih =>
      intro rep hnd
      have hndc := hnd c (List.mem_cons_self c cycles)
      obtain ⟨ihnd, ihmem⟩ := ih (rep ++ (freshOf key rep c).map key)
        (fun x hx => hnd x (List.mem_cons_of_mem c hx))
      rw [runCycles_cons, List.flatten_cons, List.map_append]
      constructor
      · refine (freshOf_keys_nodup key rep c hndc).append ihnd ?_
        intro k hk1 hk2
        exact ihmem k hk2 (List.mem_append_right rep hk1)
      · intro k hk
        rcases List.mem_append.mp hk with hk1 | hk2
        · exact freshOf_keys_not_mem key rep c k hk1
        · exact fun hrep => ihmem k hk2 (List.mem_append_left _ hrep)

theorem repAfter_subset {A K : Type} [DecidableEq K] (key : A → K) :
    ∀ (cycles : List (List A)) (rep : List K), rep ⊆ repAfter key cycles rep := by
  intro cycles
  induction cycles with
  | nil => exact fun rep x hx => hx
  | cons c cycles ih =>
      intro rep
      exact List.Subset.trans (List.subset_append_left rep _)
        (ih (rep ++ (freshOf key rep c).map key))

/-- C5: at-most-once alerting.  Over the whole lifetime of the process —
the fixed duplicate-free symbol universe scanned against arbitrary
per-cycle market data, with the reported sets starting empty — the keys
of all fresh pump alerts ever emitted are pairwise distinct, and so are
the keys of all fresh breakout alerts: each `(symbol, hour)` key yields
at most one fresh alert of each kind (in particular scanning identical
candle data twice yields a fresh result for a key at most once across
both cycles), and the reported sets only ever grow. -/
theorem c5_dedup (symbols : List String) (hnd : symbols.Nodup)
    (datas : List (String → Klines)) :
    ((pumpRun symbols datas).flatten.map pumpKey).Nodup ∧
    ((breakoutRun symbols datas).flatten.map breakoutKey).Nodup ∧
    (∀ (cycles : List (List PumpRes)) (rep : List (String × ℤ)),
      rep ⊆ repAfter pumpKey cycles rep) ∧
    (∀ (cycles : List (List BreakoutRes)) (rep : List (String × ℤ)),
      rep ⊆ repAfter breakoutKey cycles rep) := by
  refine ⟨?_, ?_, repAfter_subset pumpKey, repAfter_subset breakoutKey⟩
  · refine (runCycles_keys_nodup pumpKey (datas.map (pumpsOf symbols)) [] ?_).1
    intro c hc
    rw [List.mem_map] at hc
    obtain ⟨d, _, rfl⟩ := hc
    exact pumpsOf_keys_nodup symbols hnd d
  · refine (runCycles_keys_nodup breakoutKey (datas.map (breakoutsOf symbols)) [] ?_).1
    intro c hc
    rw [List.mem_map] at hc
    obtain ⟨d, _, rfl⟩ := hc
    exact breakoutsOf_keys_nodup symbols hnd d

/-- Witness for `c5_dedup`: one symbol scanned twice against the
identical window `brkW`; the first cycle emits the single pump and
breakout alert, the second emits nothing. -/
theorem c5_dedup_witness :
    ["BTCUSDT"].Nodup ∧
    ((pumpRun ["BTCUSDT"] [fun _ => .arr brkW, fun _ => .arr brkW]).flatten.map
        pumpKey).Nodup ∧
    (pumpRun ["BTCUSDT"] [fun _ => .arr brkW, fun _ => .arr brkW]).map
        List.length = [1, 0] ∧
    (breakoutRun ["BTCUSDT"] [fun _ => .arr brkW, fun _ => .arr brkW]).map
        List.length = [1, 0] :=
  ⟨by decide,
   (c5_dedup ["BTCUSDT"] (by decide) [fun _ => .arr brkW, fun _ => .arr brkW]).1,
   by decide, by decide⟩

/-! ### C10: Pump and Breakout are not mutually exclusive -/

/-- C10: on `brkW` the last closed candle moves `+1200/83 % ≈ 14.46 % ≥ 3 %`
and the Supertrend direction flips from `-1` to `+1` at that same candle,
and a single `scan_last_candle` call returns both a pump result and a
breakout result. -/
theorem c10_pump_and_breakout_coexist :
    pctAt brkW (brkW.length - 2) ≥ 3 ∧
    trendAux (brkW.take (brkW.length - 1)) 10 3 (brkW.length - 1 - 1 - 10) = 1 ∧
    trendAux (brkW.take (brkW.length - 1)) 10 3 (brkW.length - 1 - 1 - 10 - 1) = -1 ∧
    (scan_last_candle "BTCUSDT" (.arr brkW)).1.isSome = true ∧
    (scan_last_candle "BTCUSDT" (.arr brkW)).2.isSome = true := by
  decide

end Break
